import Mathlib

/-!
Shallow embedding of the topology/indexing core of the tyssue repository
(src/tyssue/core/objects.py).

Pandas dataframes are modelled as association lists: a table is a
List (Nat x row), pairing each row's index label with its content.  A
dataframe's `.loc[label]` is `List.lookup`; `reset_index(drop=True)` is
`List.enum` of the rows.  Python exceptions are modelled with `Except`,
where the error value records the raised exception class.  Floating point
edge vectors (the dx, dy columns) are modelled with exact integers: every
concrete table considered here holds small integer values, for which
float arithmetic is exact.
-/

namespace Tyssue

/-- Python exception classes appearing in objects.py: ValueError is raised by
the constructor's dataset-key check and by the pandas reindex machinery inside
get_opposite (reset_topo catches exactly ValueError); AssertionError by the
partition checks of get_extra_indices; KeyError by .loc on missing labels.
TopologyError is the error class named by the specification document; no code
in the repository defines or raises it. -/
inductive PyErr where
  | valueError
  | assertionError
  | keyError
  | topologyError
  deriving Repr, DecidableEq

/-- One row of the edge dataframe: the foreign keys srce, trgt, face, cell
and the directional components dx, dy used by get_extra_indices.  The cell
column is meaningful only when the epithelium models cells; the remaining
numeric columns (length, normals, ...) are not read by any operation
modelled here. -/
structure EdgeRow where
  srce : Nat
  trgt : Nat
  face : Nat
  cell : Nat
  dx : Int
  dy : Int
  deriving Repr, DecidableEq

/-- An edge table: pandas index label paired with the row. -/
abbrev EdgeTable := List (Nat × EdgeRow)

/-- Row labels of a table (the pandas index). -/
def tblLabels {α : Type} (tbl : List (Nat × α)) : List Nat :=
  tbl.map Prod.fst

/-- The whole tissue.  vert rows hold the coordinate columns, face and cell
rows hold their attribute columns (perimeter, area, ..., abstracted as a
list of values since no modelled operation reads them); hasCell records
whether 'cell' is among the data names. -/
structure Epithelium where
  vert_df : List (Nat × List Int)
  edge_df : EdgeTable
  face_df : List (Nat × List Int)
  cell_df : List (Nat × List Int)
  hasCell : Bool
  deriving Repr, DecidableEq

/-! ## get_opposite (objects.py lines 736-748)

For each half-edge, the edges whose (srce, trgt) pair is the reverse of its
own are looked up; the unique match's index label is recorded, or -1 when
there is none.  When the (srce, trgt) pairs are not unique the pandas
lookup/column-assignment machinery raises a ValueError ("cannot reindex
from a duplicate axis", or a length mismatch when every reversed pair is
present), which is what reset_topo catches; we model the whole duplicated
case as that ValueError. -/

/-- The (srce, trgt) pair of an edge row, the key of the lookup table that
get_opposite builds. -/
def pairOf (p : Nat × EdgeRow) : Nat × Nat :=
  (p.2.srce, p.2.trgt)

/-- Edges of the table whose (srce, trgt) pair is the reverse of row r's. -/
def revOf (edges : EdgeTable) (r : EdgeRow) : EdgeTable :=
  edges.filter (fun p => p.2.srce == r.trgt && p.2.trgt == r.srce)

/-- The opposite recorded for a single row: the unique reversed match's
label, or -1. -/
def oppRow (edges : EdgeTable) (r : EdgeRow) : Int :=
  match revOf edges r with
  | [q] => (q.1 : Int)
  | _ => -1

/-- get_opposite: the opposite column, positionally aligned with the rows,
or a ValueError when (srce, trgt) pairs are duplicated. -/
def get_opposite (edges : EdgeTable) : Except PyErr (List Int) :=
  if (edges.map pairOf).Nodup then
    .ok (edges.map (fun p => oppRow edges p.2))
  else
    .error .valueError

/-- The opposite-column maintenance inside reset_topo (lines 225-231): when
the edge table has an 'opposite' column and no cells are modelled, the
column is recomputed; a ValueError from get_opposite is caught, a warning
is emitted and the column is left as it was.  Returns the resulting column
and whether the warning fired. -/
def reset_topo_opposite (oldOpp : List Int) (edges : EdgeTable) :
    List Int × Bool :=
  match get_opposite edges with
  | .ok o => (o, false)
  | .error _ => (oldOpp, true)

/-! ## get_extra_indices (objects.py lines 405-497) -/

/-- The classification test of get_extra_indices: with
theta = arctan2(dy, dx), the half-edge is "east" when 0 <= theta < pi.
Since arctan2 has range (-pi, pi], with theta = pi exactly when dy = 0 and
dx < 0, this holds exactly when dy > 0, or dy = 0 and dx >= 0 (float
negative zero does not arise for exact integer data).  The
characterization is proved against Complex.arg below (eastTest_arg). -/
def eastTest (dy dx : Int) : Bool :=
  0 < dy || (dy == 0 && 0 ≤ dx)

/-- The index sets computed by get_extra_indices that the claims refer to
(the further derived fields sgle/srtd/wrpd_edges and anti_sym are plain
concatenations of these and are not modelled). -/
structure ExtraIndices where
  free_edges : List Nat
  dble_edges : List Nat
  east_edges : List Nat
  west_edges : List Nat
  deriving Repr, DecidableEq

/-- get_extra_indices, for an edge table whose 'opposite' column is absent
(or freshly recomputed): the opposite column is obtained from get_opposite,
dble/free split the edges by opposite >= 0 versus opposite == -1, east are
the dble edges passing the angle test, west are the east edges' opposite
labels (the .loc over east labels is realised positionally, which agrees
with pandas for unique labels), and the three count assertions are checked,
raising AssertionError on violation. -/
def get_extra_indices (edges : EdgeTable) : Except PyErr ExtraIndices :=
  match get_opposite edges with
  | .error err => .error err
  | .ok opp =>
    let tagged := edges.zip opp
    let dble := (tagged.filter (fun q => 0 ≤ q.2)).map (fun q => q.1.1)
    let east := (tagged.filter
      (fun q => 0 ≤ q.2 && eastTest q.1.2.dy q.1.2.dx)).map (fun q => q.1.1)
    let west := (tagged.filter
      (fun q => 0 ≤ q.2 && eastTest q.1.2.dy q.1.2.dx)).map
        (fun q => q.2.toNat)
    let free := (tagged.filter (fun q => q.2 == -1)).map (fun q => q.1.1)
    if 2 * east.length + free.length == edges.length
        && west.length == east.length
        && dble.length == 2 * east.length then
      .ok { free_edges := free, dble_edges := dble,
            east_edges := east, west_edges := west }
    else
      .error .assertionError

/-! ## closedness tests (objects.py lines 719-733) -/

/-- the weak validity test _test_valid: true iff the set of source labels
equals the set of target labels of the face's half-edges (python set
equality, i.e. mutual inclusion). -/
def _test_valid (face : EdgeTable) : Bool :=
  let s1 := face.map (fun p => p.2.srce)
  let s2 := face.map (fun p => p.2.trgt)
  s1.all (fun v => v ∈ s2) && s2.all (fun v => v ∈ s1)

/-- the test _test_invalid: true iff the source and target sets differ. -/
def _test_invalid (face : EdgeTable) : Bool :=
  let s1 := face.map (fun p => p.2.srce)
  let s2 := face.map (fun p => p.2.trgt)
  !(s1.all (fun v => v ∈ s2) && s2.all (fun v => v ∈ s1))

/-! ## _ordered_edges and face_polygons (objects.py lines 388-403, 689-709) -/

/-- trgts[srces == trgt][0]: the target of the first half-edge of the face
whose source equals t; none models the IndexError on an empty selection. -/
def chainNext (pairs : List (Nat × Nat)) (t : Nat) : Option Nat :=
  ((pairs.filter (fun p => p.1 == t)).map Prod.snd).head?

/-- the loop of _ordered_edges: n further steps of
srce, trgt = trgt, trgts[srces == trgt][0], collecting (srce, trgt). -/
def orderedGo (pairs : List (Nat × Nat)) : Nat → Nat → Option (List (Nat × Nat))
  | 0, _ => some []
  | n + 1, t =>
    match chainNext pairs t with
    | none => none
    | some t2 => (orderedGo pairs n t2).map (fun rest => (t, t2) :: rest)

/-- _ordered_edges on the (srce, trgt) pairs of a face's half-edges: the
first row seeds the walk, then one chaining step is taken per remaining
row; none models the IndexError raised when the walk gets stuck. -/
def _ordered_edges (pairs : List (Nat × Nat)) : Option (List (Nat × Nat)) :=
  match pairs with
  | [] => none
  | (s0, t0) :: rest => (orderedGo pairs rest.length t0).map
      (fun chain => (s0, t0) :: chain)

/-- the (srce, trgt) pairs of the half-edges of face f, in table order
(the groupby('face') group). -/
def faceGroup (e : Epithelium) (f : Nat) : List (Nat × Nat) :=
  (e.edge_df.filter (fun p => p.2.face == f)).map
    (fun p => (p.2.srce, p.2.trgt))

/-- insertion sort on labels, standing for numpy's sorted output. -/
def insertLe (a : Nat) : List Nat → List Nat
  | [] => [a]
  | b :: t => if a ≤ b then a :: b :: t else b :: insertLe a t

/-- insertion sort on labels, standing for numpy's sorted output. -/
def sortNat : List Nat → List Nat
  | [] => []
  | a :: t => insertLe a (sortNat t)

/-- np.unique / pandas unique-then-sort: the sorted duplicate-free list of
the values. -/
def sortedUnique (l : List Nat) : List Nat :=
  sortNat l.dedup

/-- face_polygons: for each distinct face value (groupby sorts its keys),
walk the face's half-edges with _ordered_edges; a face where the walk
raises yields NaN and is dropped (dropna), otherwise the source vertices'
coordinate rows are collected.  A missing vertex label would raise KeyError
in pandas; the claims' hypotheses keep all references valid. -/
def face_polygons (e : Epithelium) : List (Nat × List (List Int)) :=
  (sortedUnique (e.edge_df.map (fun p => p.2.face))).filterMap (fun f =>
    match _ordered_edges (faceGroup e f) with
    | none => none
    | some chain => some (f, chain.map
        (fun p => (List.lookup p.1 e.vert_df).getD [])))

/-! ## cut_out (objects.py lines 572-596) -/

/-- whether the vertex labelled v has, among the coordinates paired with the
bbox bounds, one lying strictly outside its (min, max) interval.  This is
the per-vertex content of the out_vert_ columns; the pandas computation
builds one boolean column per coordinate and ORs them, which is the same
disjunction.  A missing label would raise KeyError in pandas; theorems about
cut_out carry the corresponding validity hypothesis. -/
def outVert (e : Epithelium) (bbox : List (Int × Int)) (v : Nat) : Bool :=
  match List.lookup v e.vert_df with
  | some cs => (cs.zip bbox).any (fun q => q.1 < q.2.1 || q.2.2 < q.1)
  | none => false

/-- cut_out: the labels of the edges having at least one endpoint vertex
outside the bounding box. -/
def cut_out (e : Epithelium) (bbox : List (Int × Int)) : List Nat :=
  (e.edge_df.filter
    (fun p => outVert e bbox p.2.srce || outVert e bbox p.2.trgt)).map
    Prod.fst

/-! ## reset_index (objects.py lines 606-630) -/

/-- the position a label will get after reset_index: new_vertidx (or the
face/cell analogue) looked up at that label, i.e. the label's position in
the current index. -/
def newIdx (lbls : List Nat) (l : Nat) : Nat :=
  lbls.indexOf l

/-- the foreign-key rewrite a single edge row undergoes in reset_index:
each key becomes the referenced label's position in the referenced table
(the upcast of the new-index series), the cell key only when cells are
modelled. -/
def rewriteKeys (e : Epithelium) (r : EdgeRow) : EdgeRow :=
  { r with
    srce := newIdx (tblLabels e.vert_df) r.srce
    trgt := newIdx (tblLabels e.vert_df) r.trgt
    face := newIdx (tblLabels e.face_df) r.face
    cell := if e.hasCell then newIdx (tblLabels e.cell_df) r.cell
            else r.cell }

/-- reset_index: every foreign key of the edge table is rewritten to the
referenced label's position in the referenced table, then every table's
index is reset to 0..count-1 in place (List.enum), keeping row order. -/
def reset_index (e : Epithelium) : Epithelium :=
  { vert_df := (e.vert_df.map Prod.snd).enum
    edge_df := (e.edge_df.map (fun p => rewriteKeys e p.2)).enum
    face_df := (e.face_df.map Prod.snd).enum
    cell_df := if e.hasCell then (e.cell_df.map Prod.snd).enum else e.cell_df
    hasCell := e.hasCell }

/-! ## remove (objects.py lines 539-570) -/

/-- the top-level owner of an edge row: its cell when cells are modelled,
else its face (element_names[-1]). -/
def topOf (e : Epithelium) (r : EdgeRow) : Nat :=
  if e.hasCell then r.cell else r.face

/-- fto_rm: the sorted distinct top-level owners of the selected edges
(edge_df.loc[edge_out, top_level].unique(), then sorted). -/
def ownersOf (e : Epithelium) (edge_out : List Nat) : List Nat :=
  sortedUnique (edge_out.filterMap
    (fun l => (List.lookup l e.edge_df).map (topOf e)))

/-- the table surgery of remove, given a nonempty fto_rm: drop every edge
owned by a removed element, keep exactly the vertices still referenced by a
remaining edge's srce or trgt (vert_df.loc over the sorted unique referenced
labels), drop the removed elements from their own table and, when cells are
modelled, keep exactly the faces still referenced. -/
def dropOwners (e : Epithelium) (fto_rm : List Nat) : Epithelium :=
  let edges2 := e.edge_df.filter (fun p => !(fto_rm.contains (topOf e p.2)))
  let rverts := sortedUnique
    (edges2.map (fun p => p.2.srce) ++ edges2.map (fun p => p.2.trgt))
  let vert2 := rverts.filterMap
    (fun l => (List.lookup l e.vert_df).map (fun row => (l, row)))
  if e.hasCell then
    let rfaces := sortedUnique (edges2.map (fun p => p.2.face))
    { e with
      edge_df := edges2
      vert_df := vert2
      face_df := rfaces.filterMap
        (fun l => (List.lookup l e.face_df).map (fun row => (l, row)))
      cell_df := e.cell_df.filter (fun p => !(fto_rm.contains p.1)) }
  else
    { e with
      edge_df := edges2
      vert_df := vert2
      face_df := e.face_df.filter (fun p => !(fto_rm.contains p.1)) }

/-- remove: a no-op when no owners are selected, otherwise the table surgery
followed by reset_index.  The concluding reset_topo recomputes derived
columns (num_sides, the composite index, the opposite column) that are not
part of the modelled table state. -/
def remove (e : Epithelium) (edge_out : List Nat) : Epithelium :=
  let fto_rm := ownersOf e edge_out
  if fto_rm.isEmpty then e
  else reset_index (dropOwners e fto_rm)

/-! ## construction (objects.py lines 65-121) -/

/-- a caller-supplied dataframe of the constructor's datasets mapping; as in
python, any name may be paired with any payload. -/
inductive PyTable where
  | verts : List (Nat × List Int) → PyTable
  | edges : EdgeTable → PyTable
  | attrs : List (Nat × List Int) → PyTable
  deriving Repr, DecidableEq

/-- frame_types, the admissible dataset keys. -/
def frame_types : List String := ["edge", "vert", "face", "cell"]

/-- assembling the epithelium's tables from the validated datasets mapping. -/
def mkEpithelium (datasets : List (String × PyTable)) : Epithelium :=
  { vert_df := match List.lookup "vert" datasets with
      | some (.verts v) => v
      | _ => []
    edge_df := match List.lookup "edge" datasets with
      | some (.edges v) => v
      | _ => []
    face_df := match List.lookup "face" datasets with
      | some (.attrs v) => v
      | _ => []
    cell_df := match List.lookup "cell" datasets with
      | some (.attrs v) => v
      | _ => []
    hasCell := (datasets.map Prod.fst).contains "cell" }

/-- Epithelium.__init__ dataset validation: if the datasets mapping holds a
key outside frame_types, a ValueError is raised and no instance is
produced; otherwise the instance is built from the named tables. -/
def Epithelium.init (datasets : List (String × PyTable)) :
    Except PyErr Epithelium :=
  if (datasets.map Prod.fst).all (fun k => frame_types.contains k) then
    .ok (mkEpithelium datasets)
  else
    .error .valueError

/-! ## concrete instances used by witnesses and counterexamples -/

/-- shorthand for an edge row of a cell-free epithelium. -/
def mkRow (s t f : Nat) (dx dy : Int) : EdgeRow :=
  { srce := s, trgt := t, face := f, cell := 0, dx := dx, dy := dy }

/-- a cell-free epithelium of two triangle-free faces sharing vertex 1:
face 0 holds half-edges 0 (0 to 1) and 1 (1 to 0), face 1 holds half-edges
2 (1 to 2) and 3 (2 to 1). -/
def exTwoFaces : Epithelium :=
  { vert_df := [(0, [0, 0]), (1, [1, 0]), (2, [2, 0])]
    edge_df := [(0, mkRow 0 1 0 1 0), (1, mkRow 1 0 0 (-1) 0),
                (2, mkRow 1 2 1 1 0), (3, mkRow 2 1 1 (-1) 0)]
    face_df := [(0, [6]), (1, [6])]
    cell_df := []
    hasCell := false }

/-- an epithelium with scrambled, non-dense index labels. -/
def exScrambled : Epithelium :=
  { vert_df := [(5, [0, 0]), (2, [1, 0]), (9, [2, 0])]
    edge_df := [(7, mkRow 5 2 3 1 0), (4, mkRow 2 9 3 1 0)]
    face_df := [(3, [1])]
    cell_df := []
    hasCell := false }

/-- two opposite pairs whose dx, dy data classify both halves of the pair
(0, 1) as east and neither half of the pair (2, 3) as east. -/
def exBothEast : EdgeTable :=
  [(0, mkRow 0 1 0 1 1), (1, mkRow 1 0 0 1 1),
   (2, mkRow 2 3 1 1 (-1)), (3, mkRow 3 2 1 1 (-1))]

/-- one interior pair with geometrically consistent direction data. -/
def exOnePair : EdgeTable :=
  [(0, mkRow 0 1 0 1 1), (1, mkRow 1 0 0 (-1) (-1))]

/-- a face whose source and target vertex sets coincide while the multisets
differ: half-edges 0 to 1, 0 to 0 and 1 to 1. -/
def exSetsNotMultisets : EdgeTable :=
  [(0, mkRow 0 1 0 0 0), (1, mkRow 0 0 0 0 0), (2, mkRow 1 1 0 0 0)]

/-- an edge table with a duplicated (srce, trgt) pair. -/
def exDupPair : EdgeTable :=
  [(0, mkRow 0 1 0 1 0), (1, mkRow 0 1 0 1 0), (2, mkRow 1 0 0 1 0)]

/-- a cell-free epithelium whose single face 7 holds an open source-target
path 0 to 1 to 2 to 3: not a closed loop, but chainable. -/
def exOpenPath : Epithelium :=
  { vert_df := [(0, [0, 0]), (1, [1, 0]), (2, [2, 0]), (3, [3, 0])]
    edge_df := [(0, mkRow 0 1 7 1 0), (1, mkRow 1 2 7 1 0),
                (2, mkRow 2 3 7 1 0)]
    face_df := [(7, [3])]
    cell_df := []
    hasCell := false }

/-- the (srce, trgt) pairs of a triangular loop. -/
def exTriangle : List (Nat × Nat) := [(0, 1), (1, 2), (2, 0)]

/-- a constructor datasets mapping holding the unknown key "foo". -/
def exBadDatasets : List (String × PyTable) :=
  [("vert", PyTable.verts [(0, [0, 0])]), ("foo", PyTable.attrs [])]

/-- a bounding box containing every vertex of exTwoFaces, with vertex 0 and
vertex 2 exactly on its x bounds. -/
def exSnugBox : List (Int × Int) := [(0, 2), (0, 0)]

/-- a bounding box whose x range cuts vertex 2 of exTwoFaces out. -/
def exTightBox : List (Int × Int) := [(0, 1), (0, 0)]

/-! ## helper lemmas on tables -/

theorem mem_insertLe {a b : Nat} {l : List Nat} :
    a ∈ insertLe b l ↔ a = b ∨ a ∈ l := by
  induction l with
  | nil => simp [insertLe]
  | cons c t ih =>
    by_cases h : b ≤ c
    · simp [insertLe, h]
    · simp [insertLe, h, ih]
      tauto

theorem mem_sortNat {a : Nat} {l : List Nat} : a ∈ sortNat l ↔ a ∈ l := by
  induction l with
  | nil => simp [sortNat]
  | cons b t ih => simp [sortNat, mem_insertLe, ih]

theorem mem_sortedUnique {a : Nat} {l : List Nat} :
    a ∈ sortedUnique l ↔ a ∈ l := by
  simp [sortedUnique, mem_sortNat, List.mem_dedup]

theorem tblLabels_cons {α : Type} (p : Nat × α) (t : List (Nat × α)) :
    tblLabels (p :: t) = p.1 :: tblLabels t := rfl

theorem lookup_mem {α : Type} {tbl : List (Nat × α)} {a : Nat} {b : α}
    (h : List.lookup a tbl = some b) : (a, b) ∈ tbl := by
  induction tbl with
  | nil => simp [List.lookup] at h
  | cons p t ih =>
    obtain ⟨k, v⟩ := p
    by_cases hab : a = k
    · subst hab
      simp [List.lookup] at h
      subst h
      exact List.mem_cons_self _ _
    · simp [List.lookup, beq_false_of_ne hab] at h
      exact List.mem_cons_of_mem _ (ih h)

theorem lookup_isSome_iff {α : Type} {tbl : List (Nat × α)} {a : Nat} :
    (List.lookup a tbl).isSome = true ↔ a ∈ tblLabels tbl := by
  induction tbl with
  | nil => simp [List.lookup, tblLabels]
  | cons p t ih =>
    obtain ⟨k, v⟩ := p
    rw [tblLabels_cons]
    by_cases hab : a = k
    · subst hab
      simp [List.lookup]
    · rw [show List.lookup a ((k, v) :: t) = List.lookup a t from by
        simp [List.lookup, beq_false_of_ne hab]]
      rw [List.mem_cons, or_iff_right hab]
      exact ih

theorem mem_lookup_of_nodup {α : Type} :
    ∀ {tbl : List (Nat × α)} {a : Nat} {b : α},
      (tblLabels tbl).Nodup → (a, b) ∈ tbl → List.lookup a tbl = some b := by
  intro tbl
  induction tbl with
  | nil => intro a b _ h; simp at h
  | cons p t ih =>
    intro a b hl hmem
    obtain ⟨k, v⟩ := p
    rw [tblLabels_cons] at hl
    have hk : k ∉ tblLabels t := (List.nodup_cons.1 hl).1
    rcases List.mem_cons.1 hmem with h | h
    · simp at h
      obtain ⟨h1, h2⟩ := h
      subst h1; subst h2
      simp [List.lookup]
    · have hne : a ≠ k := by
        intro he
        subst he
        exact hk (by simpa [tblLabels] using List.mem_map_of_mem Prod.fst h)
      simp [List.lookup, beq_false_of_ne hne]
      exact ih (List.nodup_cons.1 hl).2 h

theorem lookup_eq_some_iff {α : Type} {tbl : List (Nat × α)}
    (hl : (tblLabels tbl).Nodup) {a : Nat} {b : α} :
    List.lookup a tbl = some b ↔ (a, b) ∈ tbl :=
  ⟨lookup_mem, mem_lookup_of_nodup hl⟩

theorem get_snd_indexOf {α : Type} (tbl : List (Nat × α)) (a : Nat) :
    (tbl.map Prod.snd).get? (List.indexOf a (tblLabels tbl)) =
      List.lookup a tbl := by
  induction tbl with
  | nil => simp [tblLabels, List.lookup]
  | cons p t ih =>
    obtain ⟨k, v⟩ := p
    rw [tblLabels_cons]
    by_cases hab : a = k
    · subst hab
      simp [List.lookup, List.indexOf_cons_self]
    · rw [List.indexOf_cons_ne _ (Ne.symm hab)]
      rw [List.map_cons, List.get?_cons_succ]
      rw [show List.lookup a ((k, v) :: t) = List.lookup a t from by
        simp [List.lookup, beq_false_of_ne hab]]
      exact ih

theorem lookup_enum {α : Type} (l : List α) (k : Nat) :
    List.lookup k l.enum = l.get? k := by
  have main : ∀ (l : List α) (n k : Nat),
      List.lookup (n + k) (List.enumFrom n l) = l.get? k := by
    intro l
    induction l with
    | nil => intro n k; simp [List.enumFrom, List.lookup]
    | cons a t ih =>
      intro n k
      cases k with
      | zero => simp [List.enumFrom, List.lookup]
      | succ j =>
        rw [List.enumFrom, List.lookup]
        have hne : (n + (j + 1) == n) = false := by
          simp
        rw [hne]
        have := ih (n + 1) j
        simpa [Nat.add_assoc, Nat.add_comm 1 j] using this
  simpa using main l 0 k

theorem tblLabels_enum {α : Type} (rows : List α) :
    tblLabels rows.enum = List.range rows.length := by
  simp [tblLabels, List.enum_map_fst]

theorem inj_labels {α : Type} {tbl : List (Nat × α)}
    (hl : (tblLabels tbl).Nodup) {x y : Nat × α}
    (hx : x ∈ tbl) (hy : y ∈ tbl) (he : x.1 = y.1) : x = y :=
  List.inj_on_of_nodup_map hl hx hy he

/-- eastTest is the exact characterization of the source's angle test
0 <= arctan2(dy, dx) < pi: Complex.arg of the point (dx, dy) is arctan2
with the same (-pi, pi] convention. -/
theorem eastTest_arg (dy dx : Int) :
    eastTest dy dx = true ↔
      (0 ≤ Complex.arg { re := (dx : Real), im := (dy : Real) } ∧
        Complex.arg { re := (dx : Real), im := (dy : Real) } < Real.pi) := by
  have h1 : (0 ≤ Complex.arg { re := (dx : Real), im := (dy : Real) }) ↔
      0 ≤ dy := by
    rw [Complex.arg_nonneg_iff]
    show (0 : Real) ≤ (dy : Real) ↔ 0 ≤ dy
    exact Int.cast_nonneg
  have h2 : (Complex.arg { re := (dx : Real), im := (dy : Real) }
      < Real.pi) ↔ ¬(dx < 0 ∧ dy = 0) := by
    constructor
    · intro hlt hcon
      have hre : ((dx : Real) < 0) := by exact_mod_cast hcon.1
      have him : ((dy : Real) = 0) := by exact_mod_cast hcon.2
      have harg := (@Complex.arg_eq_pi_iff
        { re := (dx : Real), im := (dy : Real) }).2 ⟨hre, him⟩
      rw [harg] at hlt
      exact lt_irrefl _ hlt
    · intro hnot
      rcases lt_or_eq_of_le (Complex.arg_le_pi _) with h | h
      · exact h
      · obtain ⟨hre, him⟩ := Complex.arg_eq_pi_iff.1 h
        have hre2 : (dx : Real) < 0 := hre
        have him2 : (dy : Real) = 0 := him
        exact absurd ⟨by exact_mod_cast hre2, by exact_mod_cast him2⟩ hnot
  rw [h1, h2]
  simp only [eastTest, Bool.or_eq_true, Bool.and_eq_true,
    decide_eq_true_eq, beq_iff_eq]
  omega

/-! ## reset_index lemmas -/

theorem reset_index_vert_labels (e : Epithelium) :
    tblLabels (reset_index e).vert_df = List.range e.vert_df.length := by
  simp [reset_index, tblLabels_enum]

theorem reset_index_edge_labels (e : Epithelium) :
    tblLabels (reset_index e).edge_df = List.range e.edge_df.length := by
  simp [reset_index, tblLabels_enum]

theorem reset_index_face_labels (e : Epithelium) :
    tblLabels (reset_index e).face_df = List.range e.face_df.length := by
  simp [reset_index, tblLabels_enum]

theorem reset_index_cell_labels (e : Epithelium) (h : e.hasCell = true) :
    tblLabels (reset_index e).cell_df = List.range e.cell_df.length := by
  simp [reset_index, h, tblLabels_enum]

theorem reset_index_vert_rows (e : Epithelium) :
    (reset_index e).vert_df.map Prod.snd = e.vert_df.map Prod.snd := by
  simp [reset_index, List.enum_map_snd]

theorem reset_index_face_rows (e : Epithelium) :
    (reset_index e).face_df.map Prod.snd = e.face_df.map Prod.snd := by
  simp [reset_index, List.enum_map_snd]

theorem reset_index_cell_rows (e : Epithelium) (h : e.hasCell = true) :
    (reset_index e).cell_df.map Prod.snd = e.cell_df.map Prod.snd := by
  simp [reset_index, h, List.enum_map_snd]

theorem reset_index_edge_get (e : Epithelium) (i : Nat) :
    (reset_index e).edge_df.get? i =
      (e.edge_df.get? i).map (fun p => (i, rewriteKeys e p.2)) := by
  show ((e.edge_df.map (fun p => rewriteKeys e p.2)).enum).get? i = _
  rw [List.get?_enum, List.get?_map]
  cases e.edge_df.get? i <;> simp

theorem reset_index_vert_length (e : Epithelium) :
    (reset_index e).vert_df.length = e.vert_df.length := by
  simp [reset_index]

theorem reset_index_face_length (e : Epithelium) :
    (reset_index e).face_df.length = e.face_df.length := by
  simp [reset_index]

theorem reset_index_cell_length (e : Epithelium) (h : e.hasCell = true) :
    (reset_index e).cell_df.length = e.cell_df.length := by
  simp [reset_index, h]

theorem lookup_reset_vert (e : Epithelium) (a : Nat) :
    List.lookup (newIdx (tblLabels e.vert_df) a) (reset_index e).vert_df =
      List.lookup a e.vert_df := by
  show List.lookup _ ((e.vert_df.map Prod.snd).enum) = _
  rw [lookup_enum]
  exact get_snd_indexOf e.vert_df a

theorem lookup_reset_face (e : Epithelium) (a : Nat) :
    List.lookup (newIdx (tblLabels e.face_df) a) (reset_index e).face_df =
      List.lookup a e.face_df := by
  show List.lookup _ ((e.face_df.map Prod.snd).enum) = _
  rw [lookup_enum]
  exact get_snd_indexOf e.face_df a

theorem lookup_reset_cell (e : Epithelium) (h : e.hasCell = true) (a : Nat) :
    List.lookup (newIdx (tblLabels e.cell_df) a) (reset_index e).cell_df =
      List.lookup a e.cell_df := by
  show List.lookup _ (if e.hasCell then (e.cell_df.map Prod.snd).enum
    else e.cell_df) = _
  rw [h]
  show List.lookup _ ((e.cell_df.map Prod.snd).enum) = _
  rw [lookup_enum]
  exact get_snd_indexOf e.cell_df a

/-- C2: after reset_index, each table's row index is exactly 0..count-1,
rows keep their relative order, and every half-edge foreign key lies inside
the referenced table's range and looks up the same row in the renumbered
table that the old key looked up in the old table.  The Nodup hypotheses
state that the pandas indices are valid (unique); the reference hypothesis
states that every foreign key resolves, as the pandas upcast requires. -/
theorem C2_reset_index_spec (e : Epithelium)
    (hv : (tblLabels e.vert_df).Nodup)
    (hf : (tblLabels e.face_df).Nodup)
    (hc : (tblLabels e.cell_df).Nodup)
    (href : ∀ p ∈ e.edge_df, p.2.srce ∈ tblLabels e.vert_df ∧
      p.2.trgt ∈ tblLabels e.vert_df ∧ p.2.face ∈ tblLabels e.face_df ∧
      (e.hasCell = true → p.2.cell ∈ tblLabels e.cell_df)) :
    tblLabels (reset_index e).vert_df = List.range e.vert_df.length ∧
    tblLabels (reset_index e).edge_df = List.range e.edge_df.length ∧
    tblLabels (reset_index e).face_df = List.range e.face_df.length ∧
    (e.hasCell = true →
      tblLabels (reset_index e).cell_df = List.range e.cell_df.length) ∧
    (reset_index e).vert_df.map Prod.snd = e.vert_df.map Prod.snd ∧
    (reset_index e).face_df.map Prod.snd = e.face_df.map Prod.snd ∧
    (e.hasCell = true →
      (reset_index e).cell_df.map Prod.snd = e.cell_df.map Prod.snd) ∧
    (∀ i p, e.edge_df.get? i = some p →
      (reset_index e).edge_df.get? i = some (i, rewriteKeys e p.2) ∧
      (rewriteKeys e p.2).srce < (reset_index e).vert_df.length ∧
      (rewriteKeys e p.2).trgt < (reset_index e).vert_df.length ∧
      (rewriteKeys e p.2).face < (reset_index e).face_df.length ∧
      (e.hasCell = true →
        (rewriteKeys e p.2).cell < (reset_index e).cell_df.length) ∧
      List.lookup (rewriteKeys e p.2).srce (reset_index e).vert_df =
        List.lookup p.2.srce e.vert_df ∧
      List.lookup (rewriteKeys e p.2).trgt (reset_index e).vert_df =
        List.lookup p.2.trgt e.vert_df ∧
      List.lookup (rewriteKeys e p.2).face (reset_index e).face_df =
        List.lookup p.2.face e.face_df ∧
      (e.hasCell = true →
        List.lookup (rewriteKeys e p.2).cell (reset_index e).cell_df =
          List.lookup p.2.cell e.cell_df)) := by
  refine ⟨reset_index_vert_labels e, reset_index_edge_labels e,
    reset_index_face_labels e, reset_index_cell_labels e,
    reset_index_vert_rows e, reset_index_face_rows e,
    reset_index_cell_rows e, ?_⟩
  intro i p hp
  have hpm : p ∈ e.edge_df := List.get?_mem hp
  obtain ⟨hs, ht, hfa, hce⟩ := href p hpm
  have hget : (reset_index e).edge_df.get? i = some (i, rewriteKeys e p.2) := by
    rw [reset_index_edge_get, hp]
    rfl
  refine ⟨hget, ?_, ?_, ?_, ?_, ?_, ?_, ?_, ?_⟩
  · rw [reset_index_vert_length]
    show List.indexOf p.2.srce (tblLabels e.vert_df) < _
    have := List.indexOf_lt_length.2 hs
    simpa [tblLabels] using this
  · rw [reset_index_vert_length]
    show List.indexOf p.2.trgt (tblLabels e.vert_df) < _
    have := List.indexOf_lt_length.2 ht
    simpa [tblLabels] using this
  · rw [reset_index_face_length]
    show List.indexOf p.2.face (tblLabels e.face_df) < _
    have := List.indexOf_lt_length.2 hfa
    simpa [tblLabels] using this
  · intro h
    rw [reset_index_cell_length e h]
    show (if e.hasCell then newIdx (tblLabels e.cell_df) p.2.cell
      else p.2.cell) < _
    rw [h]
    show List.indexOf p.2.cell (tblLabels e.cell_df) < _
    have := List.indexOf_lt_length.2 (hce h)
    simpa [tblLabels] using this
  · exact lookup_reset_vert e p.2.srce
  · exact lookup_reset_vert e p.2.trgt
  · exact lookup_reset_face e p.2.face
  · intro h
    show List.lookup (if e.hasCell then newIdx (tblLabels e.cell_df) p.2.cell
      else p.2.cell) (reset_index e).cell_df = _
    rw [h]
    exact lookup_reset_cell e h p.2.cell

/-! ## C7: construction rejects unknown table kinds -/

/-- C7: whenever the datasets mapping holds a key outside
frame_types = [edge, vert, face, cell], construction fails immediately with
the raised error (a ValueError, realising the specification's
ConfigurationError category) and no instance is produced. -/
theorem C7_init_rejects (datasets : List (String × PyTable))
    (h : ∃ k ∈ datasets.map Prod.fst, k ∉ frame_types) :
    Epithelium.init datasets = .error .valueError ∧
    ∀ ep, Epithelium.init datasets ≠ .ok ep := by
  obtain ⟨k, hk, hnk⟩ := h
  have hall :
      ¬ ((datasets.map Prod.fst).all (fun k => frame_types.contains k)
        = true) := by
    rw [List.all_eq_true]
    intro hcon
    exact hnk (by simpa using hcon k hk)
  have hif : Epithelium.init datasets = .error .valueError := by
    unfold Epithelium.init
    rw [if_neg hall]
  refine ⟨hif, fun ep => ?_⟩
  rw [hif]
  intro hcon
  cases hcon

/-- C7 witness: the mapping with key foo is rejected with a ValueError. -/
theorem C7_init_rejects_witness :
    ("foo" ∈ exBadDatasets.map Prod.fst ∧ "foo" ∉ frame_types) ∧
    Epithelium.init exBadDatasets = .error .valueError :=
  ⟨⟨by decide, by decide⟩,
   (C7_init_rejects exBadDatasets ⟨"foo", by decide, by decide⟩).1⟩

/-! ## C6: duplicated (srce, trgt) pairs -/

/-- C6 counterexample: on a table with a duplicated directed edge,
get_opposite raises a ValueError (there is no TopologyError in the code),
and reset_topo catches it and downgrades the condition to a warning,
leaving the opposite column unchanged — the claim says a TopologyError is
raised rather than the condition being downgraded to a warning. -/
theorem C6_counterexample :
    get_opposite exDupPair = Except.error PyErr.valueError ∧
    reset_topo_opposite [-1, -1, -1] exDupPair = ([-1, -1, -1], true) := by
  constructor
  · rfl
  · rfl

/-- C6 amended: any duplicated (srce, trgt) pair makes get_opposite raise a
ValueError — never a TopologyError, which does not exist in the code, and
never an arbitrary pick — and inside reset_topo this error is caught and
downgraded to a warning that leaves the opposite column as it was. -/
theorem C6_amended_dup_warns (edges : EdgeTable) (old : List Int)
    (hdup : ¬ (edges.map pairOf).Nodup) :
    get_opposite edges = .error .valueError ∧
    get_opposite edges ≠ .error .topologyError ∧
    reset_topo_opposite old edges = (old, true) := by
  have h1 : get_opposite edges = .error .valueError := by
    simp [get_opposite, hdup]
  exact ⟨h1, by simp [h1], by simp [reset_topo_opposite, h1]⟩

/-- C6 amended witness at the concrete duplicated table. -/
theorem C6_amended_witness :
    ¬ (exDupPair.map pairOf).Nodup ∧
    get_opposite exDupPair = Except.error PyErr.valueError :=
  ⟨by decide, (C6_amended_dup_warns exDupPair [] (by decide)).1⟩

/-! ## C5: the weak closedness test compares sets, not multisets -/

/-- C5 counterexample: a face whose source and target vertex sets coincide
while their multisets differ is reported closed by _test_valid, whereas the
claim says a face with equal sets but different multisets is reported not
closed. -/
theorem C5_counterexample :
    _test_valid exSetsNotMultisets = true ∧
    Multiset.ofList (exSetsNotMultisets.map (fun p => p.2.srce)) ≠
      Multiset.ofList (exSetsNotMultisets.map (fun p => p.2.trgt)) := by
  constructor
  · rfl
  · decide

/-- C5 amended: the weak closedness test reports a face closed exactly when
the set of source endpoints of its half-edges equals the set of its target
endpoints (so equal sets with different multisets are still reported
closed), and _test_invalid is its exact negation. -/
theorem C5_amended_set_equality (face : EdgeTable) :
    (_test_valid face = true ↔
      ∀ v, v ∈ face.map (fun p => p.2.srce) ↔
        v ∈ face.map (fun p => p.2.trgt)) ∧
    _test_invalid face = !(_test_valid face) := by
  constructor
  · simp only [_test_valid, List.all_eq_true, Bool.and_eq_true,
      decide_eq_true_eq]
    constructor
    · rintro ⟨h1, h2⟩ v
      exact ⟨fun hv => h1 v hv, fun hv => h2 v hv⟩
    · intro h
      exact ⟨fun v hv => (h v).1 hv, fun v hv => (h v).2 hv⟩
  · rfl

/-! ## C8: _ordered_edges does not detect every non-loop -/

/-- C8 counterexample: the single face of exOpenPath is an open path (its
vertex 0 is a source and never a target, so its half-edges cannot chain
into a closed loop), yet face_polygons returns a defined vertex sequence
for it instead of failing. -/
theorem C8_counterexample :
    face_polygons exOpenPath = [(7, [[0, 0], [1, 0], [2, 0]])] ∧
    (exOpenPath.edge_df.all (fun p => p.2.trgt != 0)) = true ∧
    (exOpenPath.edge_df.any (fun p => p.2.srce == 0)) = true := by
  constructor
  · rfl
  · constructor <;> rfl

theorem orderedGo_isSome (pairs : List (Nat × Nat))
    (hsucc : ∀ p ∈ pairs, ∃ q ∈ pairs, q.1 = p.2) :
    ∀ (n t : Nat), (∃ p ∈ pairs, p.2 = t) →
      (orderedGo pairs n t).isSome = true := by
  intro n
  induction n with
  | zero => intro t _; simp [orderedGo]
  | succ m ih =>
    intro t ht
    obtain ⟨p, hp, hpt⟩ := ht
    obtain ⟨q, hq, hqt⟩ := hsucc p hp
    have hmem : q ∈ pairs.filter (fun r => r.1 == t) :=
      List.mem_filter.2 ⟨hq, by simp [hqt, hpt]⟩
    obtain ⟨t2, ht2⟩ : ∃ t2, chainNext pairs t = some t2 := by
      cases hcn : chainNext pairs t with
      | some t2 => exact ⟨t2, rfl⟩
      | none =>
        unfold chainNext at hcn
        rw [List.head?_eq_none_iff, List.map_eq_nil] at hcn
        rw [hcn] at hmem
        simp at hmem
    have ht2m : ∃ r ∈ pairs, r.2 = t2 := by
      have : t2 ∈ (pairs.filter (fun r => r.1 == t)).map Prod.snd :=
        List.mem_of_mem_head? ht2
      obtain ⟨r, hr, hrt2⟩ := List.mem_map.1 this
      exact ⟨r, List.mem_of_mem_filter hr, hrt2⟩
    rw [orderedGo, ht2]
    simpa using ih t2 ht2m

/-- C8 amended: the chaining walk of _ordered_edges fails only when it gets
stuck; in particular every nonempty face in which each target vertex has an
outgoing half-edge yields a defined result, whether or not its half-edges
form a single closed loop, so polygon extraction does not reliably detect
non-loop faces. -/
theorem C8_amended_chainable_succeeds (pairs : List (Nat × Nat))
    (hne : pairs ≠ [])
    (hsucc : ∀ p ∈ pairs, ∃ q ∈ pairs, q.1 = p.2) :
    (_ordered_edges pairs).isSome = true := by
  cases pairs with
  | nil => exact absurd rfl hne
  | cons a rest =>
    obtain ⟨s0, t0⟩ := a
    rw [_ordered_edges]
    simpa using orderedGo_isSome ((s0, t0) :: rest) hsucc rest.length t0
      ⟨(s0, t0), List.mem_cons_self _ _, rfl⟩

/-- C8 amended witness: a genuine triangular loop chains successfully. -/
theorem C8_amended_witness :
    exTriangle ≠ [] ∧ (_ordered_edges exTriangle).isSome = true :=
  ⟨by decide,
   C8_amended_chainable_succeeds exTriangle (by decide) (by decide)⟩

/-! ## C4: get_opposite characterization and symmetry -/

theorem revOf_eq_singleton {edges : EdgeTable}
    (hp : (edges.map pairOf).Nodup) {q : Nat × EdgeRow} (hq : q ∈ edges)
    {r : EdgeRow} (h1 : q.2.srce = r.trgt) (h2 : q.2.trgt = r.srce) :
    revOf edges r = [q] := by
  induction edges with
  | nil => simp at hq
  | cons a t ih =>
    rw [List.map_cons, List.nodup_cons] at hp
    rw [revOf, List.filter_cons]
    rcases List.mem_cons.1 hq with h | h
    · subst h
      rw [if_pos (by simp [h1, h2])]
      have hnil : revOf t r = [] := by
        rw [revOf, List.filter_eq_nil]
        intro b hb hpb
        simp only [Bool.and_eq_true, beq_iff_eq] at hpb
        apply hp.1
        have hbq : pairOf b = pairOf q := by
          simp [pairOf, hpb.1, hpb.2, h1, h2]
        rw [← hbq]
        exact List.mem_map_of_mem pairOf hb
      rw [show t.filter (fun p => p.2.srce == r.trgt && p.2.trgt == r.srce)
        = revOf t r from rfl, hnil]
    · rw [if_neg ?hpredneg]
      case hpredneg =>
        intro hcon
        simp only [Bool.and_eq_true, beq_iff_eq] at hcon
        apply hp.1
        have haq : pairOf a = pairOf q := by
          simp [pairOf, hcon.1, hcon.2, h1, h2]
        rw [haq]
        exact List.mem_map_of_mem pairOf h
      exact ih hp.2 h

theorem oppRow_eq_of_rev {edges : EdgeTable}
    (hp : (edges.map pairOf).Nodup) {q : Nat × EdgeRow} (hq : q ∈ edges)
    {r : EdgeRow} (h1 : q.2.srce = r.trgt) (h2 : q.2.trgt = r.srce) :
    oppRow edges r = (q.1 : Int) := by
  rw [oppRow, revOf_eq_singleton hp hq h1 h2]

theorem oppRow_eq_neg_one {edges : EdgeTable} {r : EdgeRow}
    (hnone : ∀ q ∈ edges, ¬(q.2.srce = r.trgt ∧ q.2.trgt = r.srce)) :
    oppRow edges r = -1 := by
  have hnil : revOf edges r = [] := by
    rw [revOf, List.filter_eq_nil]
    intro b hb hpb
    simp only [Bool.and_eq_true, beq_iff_eq] at hpb
    exact hnone b hb hpb
  rw [oppRow, hnil]

/-- C4: on a table with no duplicated (srce, trgt) pair, get_opposite
succeeds; each edge's recorded opposite is -1 exactly when no half-edge
carries the reversed pair, is the label of the half-edge carrying the
reversed (trgt, srce) pair when one exists, and the pairing is mutually
symmetric: whenever edge p's opposite is the label of edge q, edge q's
opposite is the label of p. -/
theorem C4_opposite_spec (edges : EdgeTable)
    (hp : (edges.map pairOf).Nodup)
    (hl : (tblLabels edges).Nodup) :
    get_opposite edges = .ok (edges.map (fun p => oppRow edges p.2)) ∧
    ∀ p ∈ edges,
      ((∀ q ∈ edges, ¬(q.2.srce = p.2.trgt ∧ q.2.trgt = p.2.srce)) →
        oppRow edges p.2 = -1) ∧
      (∀ q ∈ edges, q.2.srce = p.2.trgt → q.2.trgt = p.2.srce →
        oppRow edges p.2 = (q.1 : Int)) ∧
      (∀ q ∈ edges, oppRow edges p.2 = (q.1 : Int) →
        oppRow edges q.2 = (p.1 : Int)) := by
  refine ⟨by simp [get_opposite, hp], fun p hpm => ⟨?_, ?_, ?_⟩⟩
  · exact oppRow_eq_neg_one
  · intro q hq h1 h2
    exact oppRow_eq_of_rev hp hq h1 h2
  · intro q hq hval
    by_cases hex : ∃ m ∈ edges, m.2.srce = p.2.trgt ∧ m.2.trgt = p.2.srce
    · obtain ⟨m, hm, hm1, hm2⟩ := hex
      have hoppm : oppRow edges p.2 = (m.1 : Int) :=
        oppRow_eq_of_rev hp hm hm1 hm2
      have hmq : m = q := by
        apply inj_labels hl hm hq
        have : (m.1 : Int) = (q.1 : Int) := by rw [← hoppm, hval]
        exact_mod_cast this
      subst hmq
      exact oppRow_eq_of_rev hp hpm
        (by rw [hm2]) (by rw [hm1])
    · push_neg at hex
      have : oppRow edges p.2 = -1 :=
        oppRow_eq_neg_one (fun m hm hc => hex m hm hc.1 hc.2)
      rw [this] at hval
      omega

/-- C4 witness: on the one-pair table the two half-edges are recorded as
mutual opposites. -/
theorem C4_opposite_witness :
    (exOnePair.map pairOf).Nodup ∧ (tblLabels exOnePair).Nodup ∧
    get_opposite exOnePair = Except.ok [1, 0] := by
  refine ⟨by decide, by decide, ?_⟩
  rw [(C4_opposite_spec exOnePair (by decide) (by decide)).1]
  rfl

/-! ## C3: the free/east/west partition -/

theorem oppRow_cases (edges : EdgeTable) (r : EdgeRow) :
    oppRow edges r = -1 ∨ ∃ q ∈ edges, oppRow edges r = (q.1 : Int) := by
  rcases hrev : revOf edges r with _ | ⟨q, _ | ⟨b, t⟩⟩
  · left
    rw [oppRow, hrev]
  · right
    refine ⟨q, ?_, by rw [oppRow, hrev]⟩
    have : q ∈ revOf edges r := by rw [hrev]; exact List.mem_cons_self _ _
    exact List.mem_of_mem_filter this
  · left
    rw [oppRow, hrev]

/-- C3 counterexample: on exBothEast, get_extra_indices returns without
raising (all three count assertions hold), yet free, east and west do not
cover the half-edges — label 2 is in none of them — and are not disjoint:
label 0 is both east and west. -/
theorem C3_counterexample :
    get_extra_indices exBothEast = Except.ok
      { free_edges := [], dble_edges := [0, 1, 2, 3],
        east_edges := [0, 1], west_edges := [1, 0] } ∧
    2 ∈ tblLabels exBothEast ∧
    ¬ (2 ∈ ([] : List Nat) ∨ 2 ∈ [0, 1] ∨ 2 ∈ [1, 0]) ∧
    (0 ∈ [0, 1] ∧ 0 ∈ [1, 0]) := by
  refine ⟨rfl, by decide, by decide, by decide⟩

/-- C3 amended: whenever get_extra_indices returns without raising, the
count identities hold — len(free) + 2 len(east) equals the total half-edge
count and len(west) = len(east) — and free_edges together with dble_edges
(the edges holding an opposite) form a disjoint exact cover of all
half-edges; any violation of the asserted counts raises AssertionError
instead.  The claimed exact disjoint cover by free, east and west
themselves does not hold (see the counterexample). -/
theorem C3_partition_amended (edges : EdgeTable)
    (hl : (tblLabels edges).Nodup) (r : ExtraIndices)
    (h : get_extra_indices edges = Except.ok r) :
    r.free_edges.length + 2 * r.east_edges.length = edges.length ∧
    r.west_edges.length = r.east_edges.length ∧
    (∀ l, l ∈ tblLabels edges ↔ (l ∈ r.free_edges ∨ l ∈ r.dble_edges)) ∧
    (∀ l, l ∈ r.free_edges → l ∉ r.dble_edges) := by
  unfold get_extra_indices at h
  cases hop : get_opposite edges with
  | error err => rw [hop] at h; cases h
  | ok opp =>
    rw [hop] at h
    have hopp : opp = edges.map (fun p => oppRow edges p.2) := by
      unfold get_opposite at hop
      by_cases hnd : (edges.map pairOf).Nodup
      · rw [if_pos hnd] at hop
        exact (Except.ok.inj hop).symm
      · rw [if_neg hnd] at hop
        cases hop
    have htag : edges.zip opp = edges.map (fun p => (p, oppRow edges p.2)) := by
      rw [hopp]
      have := List.zip_map' id (fun p : Nat × EdgeRow => oppRow edges p.2)
        edges
      simpa using this
    dsimp only at h
    rw [htag] at h
    have hfree : ∀ l, (l ∈ ((edges.map
        (fun p => (p, oppRow edges p.2))).filter
        (fun q => q.2 == -1)).map (fun q => q.1.1) ↔
        ∃ p ∈ edges, oppRow edges p.2 = -1 ∧ p.1 = l) := by
      intro l
      constructor
      · intro hm
        obtain ⟨q, hqf, hql⟩ := List.mem_map.1 hm
        obtain ⟨hqm, hqpred⟩ := List.mem_filter.1 hqf
        obtain ⟨p, hpm, hpq⟩ := List.mem_map.1 hqm
        subst hpq
        exact ⟨p, hpm, by simpa using hqpred, hql⟩
      · rintro ⟨p, hpm, hoppv, hpl⟩
        exact List.mem_map.2 ⟨(p, oppRow edges p.2),
          List.mem_filter.2 ⟨List.mem_map_of_mem _ hpm, by simp [hoppv]⟩, hpl⟩
    have hdble : ∀ l, (l ∈ ((edges.map
        (fun p => (p, oppRow edges p.2))).filter
        (fun q => 0 ≤ q.2)).map (fun q => q.1.1) ↔
        ∃ p ∈ edges, 0 ≤ oppRow edges p.2 ∧ p.1 = l) := by
      intro l
      constructor
      · intro hm
        obtain ⟨q, hqf, hql⟩ := List.mem_map.1 hm
        obtain ⟨hqm, hqpred⟩ := List.mem_filter.1 hqf
        obtain ⟨p, hpm, hpq⟩ := List.mem_map.1 hqm
        subst hpq
        exact ⟨p, hpm, by simpa using hqpred, hql⟩
      · rintro ⟨p, hpm, hoppv, hpl⟩
        exact List.mem_map.2 ⟨(p, oppRow edges p.2),
          List.mem_filter.2 ⟨List.mem_map_of_mem _ hpm,
            by simpa using hoppv⟩, hpl⟩
    split at h
    case isFalse => cases h
    case isTrue hc =>
      have hr := Except.ok.inj h
      subst hr
      simp only [Bool.and_eq_true, beq_iff_eq, Nat.beq_eq_true_eq] at hc
      refine ⟨?_, ?_, ?_, ?_⟩
      · dsimp only
        omega
      · dsimp only
        simp [List.length_map]
      · intro l
        dsimp only
        constructor
        · intro hll
          obtain ⟨p, hpm, hpl⟩ := List.mem_map.1 hll
          rcases oppRow_cases edges p.2 with hneg | ⟨q, _, hcast⟩
          · exact Or.inl ((hfree l).2 ⟨p, hpm, hneg, hpl⟩)
          · refine Or.inr ((hdble l).2 ⟨p, hpm, ?_, hpl⟩)
            rw [hcast]
            exact Int.natCast_nonneg q.1
        · rintro (hf | hd)
          · obtain ⟨p, hpm, _, hpl⟩ := (hfree l).1 hf
            rw [← hpl]
            exact List.mem_map_of_mem Prod.fst hpm
          · obtain ⟨p, hpm, _, hpl⟩ := (hdble l).1 hd
            rw [← hpl]
            exact List.mem_map_of_mem Prod.fst hpm
      · intro l hf hd
        dsimp only at hf hd
        obtain ⟨p1, hp1, ho1, hl1⟩ := (hfree l).1 hf
        obtain ⟨p2, hp2, ho2, hl2⟩ := (hdble l).1 hd
        have : p1 = p2 := inj_labels hl hp1 hp2 (by rw [hl1, hl2])
        subst this
        rw [ho1] at ho2
        omega

/-- C3 amended witness: a single geometrically consistent interior pair
satisfies the count identity. -/
theorem C3_amended_witness :
    (tblLabels exOnePair).Nodup ∧
    get_extra_indices exOnePair = Except.ok
      { free_edges := [], dble_edges := [0, 1],
        east_edges := [0], west_edges := [1] } ∧
    ([] : List Nat).length + 2 * ([0] : List Nat).length
      = exOnePair.length := by
  refine ⟨by decide, rfl, ?_⟩
  exact (C3_partition_amended exOnePair (by decide) _ rfl).1

/-! ## C9 and C10: cut_out -/

theorem outVert_iff (e : Epithelium) (bbox : List (Int × Int))
    (hvl : (tblLabels e.vert_df).Nodup) (v : Nat) :
    outVert e bbox v = true ↔
      ∃ vr ∈ e.vert_df, vr.1 = v ∧
        ∃ c ∈ vr.2.zip bbox, (c.1 < c.2.1 ∨ c.2.2 < c.1) := by
  unfold outVert
  cases hlk : List.lookup v e.vert_df with
  | none =>
    constructor
    · intro hcon
      cases hcon
    · rintro ⟨vr, hvr, hveq, -⟩
      have hs : (List.lookup v e.vert_df).isSome = true := by
        apply lookup_isSome_iff.2
        rw [← hveq]
        exact List.mem_map_of_mem Prod.fst hvr
      rw [hlk] at hs
      cases hs
  | some cs =>
    have hmem : (v, cs) ∈ e.vert_df := lookup_mem hlk
    constructor
    · intro hany
      obtain ⟨c, hc, hout⟩ := List.any_eq_true.1 hany
      exact ⟨(v, cs), hmem, rfl, c, hc, by simpa using hout⟩
    · rintro ⟨vr, hvr, hveq, c, hc, hout⟩
      have hvreq : vr = (v, cs) := inj_labels hvl hvr hmem (by simp [hveq])
      subst hvreq
      exact List.any_eq_true.2 ⟨c, hc, by simpa using hout⟩

/-- C9: cut_out returns exactly the labels of the half-edges having at
least one endpoint vertex with some coordinate strictly outside its
(min, max) bounds; consequently a bounding box containing every vertex
position (bounds inclusive) yields the empty result. -/
theorem C9_cut_out_spec (e : Epithelium) (bbox : List (Int × Int))
    (hvl : (tblLabels e.vert_df).Nodup)
    (href : ∀ p ∈ e.edge_df, p.2.srce ∈ tblLabels e.vert_df ∧
      p.2.trgt ∈ tblLabels e.vert_df) :
    (∀ l, l ∈ cut_out e bbox ↔
      ∃ p ∈ e.edge_df, p.1 = l ∧
        ∃ vr ∈ e.vert_df, (vr.1 = p.2.srce ∨ vr.1 = p.2.trgt) ∧
          ∃ c ∈ vr.2.zip bbox, (c.1 < c.2.1 ∨ c.2.2 < c.1)) ∧
    ((∀ vr ∈ e.vert_df, ∀ c ∈ vr.2.zip bbox, c.2.1 ≤ c.1 ∧ c.1 ≤ c.2.2) →
      cut_out e bbox = []) := by
  constructor
  · intro l
    constructor
    · intro hm
      obtain ⟨p, hpf, hpl⟩ := List.mem_map.1 hm
      obtain ⟨hpm, hcond⟩ := List.mem_filter.1 hpf
      rw [Bool.or_eq_true] at hcond
      rcases hcond with ho | ho
      · obtain ⟨vr, hvr, hveq, c, hc, hout⟩ :=
          (outVert_iff e bbox hvl p.2.srce).1 ho
        exact ⟨p, hpm, hpl, vr, hvr, Or.inl hveq, c, hc, hout⟩
      · obtain ⟨vr, hvr, hveq, c, hc, hout⟩ :=
          (outVert_iff e bbox hvl p.2.trgt).1 ho
        exact ⟨p, hpm, hpl, vr, hvr, Or.inr hveq, c, hc, hout⟩
    · rintro ⟨p, hpm, hpl, vr, hvr, hveq | hveq, c, hc, hout⟩
      · refine List.mem_map.2 ⟨p, List.mem_filter.2 ⟨hpm, ?_⟩, hpl⟩
        rw [Bool.or_eq_true]
        exact Or.inl ((outVert_iff e bbox hvl p.2.srce).2
          ⟨vr, hvr, hveq, c, hc, hout⟩)
      · refine List.mem_map.2 ⟨p, List.mem_filter.2 ⟨hpm, ?_⟩, hpl⟩
        rw [Bool.or_eq_true]
        exact Or.inr ((outVert_iff e bbox hvl p.2.trgt).2
          ⟨vr, hvr, hveq, c, hc, hout⟩)
  · intro hin
    have hall : ∀ v, outVert e bbox v = false := by
      intro v
      rw [← Bool.not_eq_true]
      intro hcon
      obtain ⟨vr, hvr, -, c, hc, hout⟩ := (outVert_iff e bbox hvl v).1 hcon
      have := hin vr hvr c hc
      rcases hout with h | h <;> omega
    unfold cut_out
    rw [List.filter_eq_nil.2 (fun p _ => by simp [hall])]
    rfl

/-- C9 witness: the snug box contains every vertex of exTwoFaces, so
nothing is cut out. -/
theorem C9_cut_out_witness :
    (tblLabels exTwoFaces.vert_df).Nodup ∧
    cut_out exTwoFaces exSnugBox = [] :=
  ⟨by decide,
   (C9_cut_out_spec exTwoFaces exSnugBox (by decide) (by decide)).2
     (by decide)⟩

/-- C10: the outside test uses strict inequalities, so a half-edge whose
two endpoint vertices have every bbox-paired coordinate on or within the
bounds — boundary equality included — is never returned by cut_out. -/
theorem C10_boundary_inside (e : Epithelium) (bbox : List (Int × Int))
    (p : Nat × EdgeRow) (hp : p ∈ e.edge_df)
    (hel : (tblLabels e.edge_df).Nodup)
    (hin : ∀ vr ∈ e.vert_df, (vr.1 = p.2.srce ∨ vr.1 = p.2.trgt) →
      ∀ c ∈ vr.2.zip bbox, c.2.1 ≤ c.1 ∧ c.1 ≤ c.2.2) :
    p.1 ∉ cut_out e bbox := by
  intro hmem
  obtain ⟨q, hqf, hql⟩ := List.mem_map.1 hmem
  obtain ⟨hqm, hcond⟩ := List.mem_filter.1 hqf
  have hqp : q = p := inj_labels hel hqm hp hql
  subst hqp
  have hov : ∀ v, (v = q.2.srce ∨ v = q.2.trgt) →
      ¬ outVert e bbox v = true := by
    intro v hv hcon
    unfold outVert at hcon
    cases hlk : List.lookup v e.vert_df with
    | none => rw [hlk] at hcon; cases hcon
    | some cs =>
      rw [hlk] at hcon
      obtain ⟨c, hc, hout⟩ := List.any_eq_true.1 hcon
      have hmm : (v, cs) ∈ e.vert_df := lookup_mem hlk
      have := hin (v, cs) hmm (by simpa using hv) c hc
      simp at hout
      rcases hout with h | h <;> omega
  rw [Bool.or_eq_true] at hcond
  rcases hcond with ho | ho
  · exact hov q.2.srce (Or.inl rfl) ho
  · exact hov q.2.trgt (Or.inr rfl) ho

/-- C10 witness: vertices 0 and 2 of exTwoFaces sit exactly on the x bounds
of the snug box, and every vertex sits on its y bounds; half-edge 0 is not
cut out. -/
theorem C10_boundary_inside_witness :
    (0, mkRow 0 1 0 1 0) ∈ exTwoFaces.edge_df ∧
    ((0, mkRow 0 1 0 1 0) : Nat × EdgeRow).1 ∉ cut_out exTwoFaces exSnugBox :=
  ⟨by decide,
   C10_boundary_inside exTwoFaces exSnugBox (0, mkRow 0 1 0 1 0)
     (by decide) (by decide) (by decide)⟩

/-! ## C1: remove cascades to whole owning elements -/

theorem mem_labels_keyLookup {α : Type} (tbl : List (Nat × α))
    (keys : List Nat) (v : Nat) :
    v ∈ tblLabels (keys.filterMap
      (fun l => (List.lookup l tbl).map (fun row => (l, row)))) ↔
    (v ∈ keys ∧ v ∈ tblLabels tbl) := by
  constructor
  · intro hm
    obtain ⟨x, hx, hxv⟩ := List.mem_map.1 hm
    obtain ⟨l, hl, hfx⟩ := List.mem_filterMap.1 hx
    obtain ⟨row, hrow, hx2⟩ := Option.map_eq_some'.1 hfx
    have hlv : l = v := by rw [← hxv, ← hx2]
    subst hlv
    exact ⟨hl, lookup_isSome_iff.1 (by rw [hrow]; rfl)⟩
  · rintro ⟨hk, hlab⟩
    obtain ⟨row, hrow⟩ :=
      Option.isSome_iff_exists.1 (lookup_isSome_iff.2 hlab)
    exact List.mem_map.2 ⟨(v, row),
      List.mem_filterMap.2 ⟨v, hk, by rw [hrow]; rfl⟩, rfl⟩

theorem dropOwners_edge (e : Epithelium) (F : List Nat) :
    (dropOwners e F).edge_df =
      e.edge_df.filter (fun p => !(F.contains (topOf e p.2))) := by
  unfold dropOwners
  split <;> rfl

theorem dropOwners_vert (e : Epithelium) (F : List Nat) :
    (dropOwners e F).vert_df = (sortedUnique
      ((e.edge_df.filter (fun p => !(F.contains (topOf e p.2)))).map
        (fun p => p.2.srce)
      ++ (e.edge_df.filter (fun p => !(F.contains (topOf e p.2)))).map
        (fun p => p.2.trgt))).filterMap
      (fun l => (List.lookup l e.vert_df).map (fun row => (l, row))) := by
  unfold dropOwners
  split <;> rfl

theorem dropOwners_face_noCell (e : Epithelium) (F : List Nat)
    (h : e.hasCell = false) :
    (dropOwners e F).face_df =
      e.face_df.filter (fun p => !(F.contains p.1)) := by
  simp [dropOwners, h]

theorem dropOwners_face_cell (e : Epithelium) (F : List Nat)
    (h : e.hasCell = true) :
    (dropOwners e F).face_df = (sortedUnique
      ((e.edge_df.filter (fun p => !(F.contains (topOf e p.2)))).map
        (fun p => p.2.face))).filterMap
      (fun l => (List.lookup l e.face_df).map (fun row => (l, row))) := by
  simp [dropOwners, h]

theorem dropOwners_cell_cell (e : Epithelium) (F : List Nat)
    (h : e.hasCell = true) :
    (dropOwners e F).cell_df =
      e.cell_df.filter (fun p => !(F.contains p.1)) := by
  simp [dropOwners, h]

/-- C1: on a nonempty selector of valid half-edge labels, remove determines
exactly the owners (cells if modelled, else faces) of the selected
half-edges, deletes every half-edge owned by them (not only the selected
ones), keeps a vertex exactly when some remaining half-edge still
references it as source or target, drops the owning elements from their
own table (and, with cells modelled, keeps a face exactly when it is still
referenced), and concludes with reset_index, leaving every table's index
dense 0-based; with an empty selector every table is left unchanged. -/
theorem C1_remove_spec (e : Epithelium) (edge_out : List Nat)
    (hsel : edge_out ≠ [])
    (hsel2 : ∀ l ∈ edge_out, l ∈ tblLabels e.edge_df)
    (hvref : ∀ p ∈ e.edge_df, p.2.srce ∈ tblLabels e.vert_df ∧
      p.2.trgt ∈ tblLabels e.vert_df)
    (hfref : ∀ p ∈ e.edge_df, p.2.face ∈ tblLabels e.face_df) :
    remove e [] = e ∧
    (∀ f, f ∈ ownersOf e edge_out ↔ ∃ l ∈ edge_out, ∃ r,
      List.lookup l e.edge_df = some r ∧ topOf e r = f) ∧
    ownersOf e edge_out ≠ [] ∧
    (dropOwners e (ownersOf e edge_out)).edge_df =
      e.edge_df.filter
        (fun p => !((ownersOf e edge_out).contains (topOf e p.2))) ∧
    (∀ v, v ∈ tblLabels (dropOwners e (ownersOf e edge_out)).vert_df ↔
      ∃ p ∈ (dropOwners e (ownersOf e edge_out)).edge_df,
        p.2.srce = v ∨ p.2.trgt = v) ∧
    (e.hasCell = false →
      (dropOwners e (ownersOf e edge_out)).face_df =
        e.face_df.filter
          (fun p => !((ownersOf e edge_out).contains p.1))) ∧
    (e.hasCell = true →
      ((dropOwners e (ownersOf e edge_out)).cell_df =
        e.cell_df.filter
          (fun p => !((ownersOf e edge_out).contains p.1)) ∧
      (∀ f, f ∈ tblLabels (dropOwners e (ownersOf e edge_out)).face_df ↔
        ∃ p ∈ (dropOwners e (ownersOf e edge_out)).edge_df,
          p.2.face = f))) ∧
    remove e edge_out = reset_index (dropOwners e (ownersOf e edge_out)) ∧
    tblLabels (remove e edge_out).vert_df =
      List.range (dropOwners e (ownersOf e edge_out)).vert_df.length ∧
    tblLabels (remove e edge_out).edge_df =
      List.range (dropOwners e (ownersOf e edge_out)).edge_df.length ∧
    tblLabels (remove e edge_out).face_df =
      List.range (dropOwners e (ownersOf e edge_out)).face_df.length ∧
    (e.hasCell = true → tblLabels (remove e edge_out).cell_df =
      List.range (dropOwners e (ownersOf e edge_out)).cell_df.length) := by
  have howner : ∀ f, f ∈ ownersOf e edge_out ↔ ∃ l ∈ edge_out, ∃ r,
      List.lookup l e.edge_df = some r ∧ topOf e r = f := by
    intro f
    rw [ownersOf, mem_sortedUnique, List.mem_filterMap]
    constructor
    · rintro ⟨l, hl, hmap⟩
      obtain ⟨r, hr, hrf⟩ := Option.map_eq_some'.1 hmap
      exact ⟨l, hl, r, hr, hrf⟩
    · rintro ⟨l, hl, r, hr, hrf⟩
      refine ⟨l, hl, ?_⟩
      rw [hr]
      simp [hrf]
  have hne : ownersOf e edge_out ≠ [] := by
    obtain ⟨l, hl⟩ := List.exists_mem_of_ne_nil _ hsel
    obtain ⟨r, hr⟩ :=
      Option.isSome_iff_exists.1 (lookup_isSome_iff.2 (hsel2 l hl))
    exact List.ne_nil_of_mem ((howner (topOf e r)).2 ⟨l, hl, r, hr, rfl⟩)
  have hrem : remove e edge_out =
      reset_index (dropOwners e (ownersOf e edge_out)) := by
    unfold remove
    cases hF : ownersOf e edge_out with
    | nil => exact absurd hF hne
    | cons a t => simp
  refine ⟨rfl, howner, hne, dropOwners_edge e _, ?_, ?_, ?_, hrem, ?_, ?_,
    ?_, ?_⟩
  · intro v
    rw [dropOwners_vert, mem_labels_keyLookup, dropOwners_edge,
      mem_sortedUnique, List.mem_append]
    constructor
    · rintro ⟨hs | ht, -⟩
      · obtain ⟨p, hp, hpv⟩ := List.mem_map.1 hs
        exact ⟨p, hp, Or.inl hpv⟩
      · obtain ⟨p, hp, hpv⟩ := List.mem_map.1 ht
        exact ⟨p, hp, Or.inr hpv⟩
    · rintro ⟨p, hp, hv | hv⟩
      · refine ⟨Or.inl (List.mem_map.2 ⟨p, hp, hv⟩), ?_⟩
        rw [← hv]
        exact (hvref p (List.mem_of_mem_filter hp)).1
      · refine ⟨Or.inr (List.mem_map.2 ⟨p, hp, hv⟩), ?_⟩
        rw [← hv]
        exact (hvref p (List.mem_of_mem_filter hp)).2
  · intro h
    exact dropOwners_face_noCell e _ h
  · intro h
    refine ⟨dropOwners_cell_cell e _ h, ?_⟩
    intro f
    rw [dropOwners_face_cell e _ h, mem_labels_keyLookup, dropOwners_edge,
      mem_sortedUnique]
    constructor
    · rintro ⟨hs, -⟩
      obtain ⟨p, hp, hpv⟩ := List.mem_map.1 hs
      exact ⟨p, hp, hpv⟩
    · rintro ⟨p, hp, hv⟩
      refine ⟨List.mem_map.2 ⟨p, hp, hv⟩, ?_⟩
      rw [← hv]
      exact hfref p (List.mem_of_mem_filter hp)
  · rw [hrem]
    exact reset_index_vert_labels _
  · rw [hrem]
    exact reset_index_edge_labels _
  · rw [hrem]
    exact reset_index_face_labels _
  · intro h
    rw [hrem]
    exact reset_index_cell_labels _ (by
      have : (dropOwners e (ownersOf e edge_out)).hasCell = e.hasCell := by
        unfold dropOwners
        split <;> rfl
      rw [this, h])

/-- C1 witness: removing one half-edge of the two-face mesh removes its
whole owning face and reindexes. -/
theorem C1_remove_spec_witness :
    ([0] : List Nat) ≠ [] ∧
    remove exTwoFaces [0] =
      reset_index (dropOwners exTwoFaces (ownersOf exTwoFaces [0])) :=
  ⟨by decide,
   (C1_remove_spec exTwoFaces [0] (by decide) (by decide) (by decide)
     (by decide)).2.2.2.2.2.2.2.1⟩

/-- C2 witness: the scrambled-label epithelium reindexes to a dense
0-based vertex index. -/
theorem C2_reset_index_witness :
    (tblLabels exScrambled.vert_df).Nodup ∧
    tblLabels (reset_index exScrambled).vert_df =
      List.range exScrambled.vert_df.length :=
  ⟨by decide,
   (C2_reset_index_spec exScrambled (by decide) (by decide) (by decide)
     (by decide)).1⟩

end Tyssue
